import Mathlib

/-!
Verification of the zbus/zvariant D-Bus codec core against its specification.

The development shallowly embeds three source files:
  * `zvariant/src/dbus/ser.rs`   — the signature-directed D-Bus serializer;
  * `zbus/src/message/builder.rs` — the message builder;
  * `zvariant/src/optional.rs`    — the `Optional` null-value wrapper.

Helpers that ser.rs/builder.rs call but whose sources are not part of this
snapshot (the signature parser, `SerializerCommon` padding helpers, the
container-depth counters, the header `Fields` operations and the
`MAX_MESSAGE_SIZE` constant) are modelled from the spec; each such
definition says so in its doc comment.

Machine integers are modelled as `Nat`/`Int` with explicit `% 2^w` where
the code truncates; the writer is a byte list (`List Nat`, each entry a
byte value) and the seek-back length patch of arrays is an explicit
in-place splice of the list.
-/

/-- Error taxonomy of the codec (zvariant `Error` / zbus `Error`), restricted
to the kinds the embedded code can produce. Serde `invalid_value` /
`invalid_type` constructions are mapped to `invalidValue` / `invalidSignature`
following the spec's error taxonomy (§7). -/
inductive DBusError where
  | invalidSignature
  | invalidValue
  | invalidField
  | maxDepthReached
  | excessData
  | inputOutput
  | incorrectType
deriving DecidableEq, Repr

/-- State of `SerializerCommon` (zvariant): encoding-context base offset
(`ctxt.n_bytes_before`), the bytes this serializer has written, the
`bytes_written` counter, the fd-accumulator length, the stashed variant
signature (`value_sign`), and the two container-depth counters. -/
structure SerState where
  base : Nat
  out : List Nat
  bytesWritten : Nat
  fds : Nat
  valueSign : Option (List Nat)
  arrayDepth : Nat
  structDepth : Nat
deriving DecidableEq, Repr

/-- Absolute stream position: `ctxt.n_bytes_before + bytes_written`
(spec §4.B: all alignment math uses the absolute position). -/
def SerState.pos (st : SerState) : Nat :=
  st.base + st.bytesWritten

/-- Bytes of zero padding needed to advance `pos` to a multiple of `align`. -/
def padCount (pos align : Nat) : Nat :=
  if align = 0 then 0 else (align - pos % align) % align

/-- Append bytes to the writer, advancing `bytes_written`. -/
def writeBytes (st : SerState) (bs : List Nat) : SerState :=
  { st with out := st.out ++ bs, bytesWritten := st.bytesWritten + bs.length }

/-- `SerializerCommon::add_padding`: write zeros up to the next multiple of
`align` of the absolute position. Modelled from the spec: the helper lives in
zvariant's common serializer state, not in this snapshot. -/
def addPadding (st : SerState) (align : Nat) : SerState :=
  writeBytes st (List.replicate (padCount st.pos align) 0)

/-- Number of zeros `addPadding` writes (the return value of `add_padding`). -/
def paddingOf (st : SerState) (align : Nat) : Nat :=
  padCount st.pos align

/-- Little-endian u32 encoding (4 bytes, value taken mod 2^32). -/
def u32le (n : Nat) : List Nat :=
  [n % 256, n / 256 % 256, n / 65536 % 256, n / 16777216 % 256]

/-- Little-endian u16 encoding. -/
def u16le (n : Nat) : List Nat :=
  [n % 256, n / 256 % 256]

/-- Little-endian u64 encoding. -/
def u64le (n : Nat) : List Nat :=
  [n % 256, n / 256 % 256, n / 65536 % 256, n / 16777216 % 256,
   n / 4294967296 % 256, n / 1099511627776 % 256,
   n / 281474976710656 % 256, n / 72057594037927936 % 256]

/-- Decode 4 little-endian bytes into a `Nat`. -/
def decodeU32 : List Nat → Nat
  | [a, b, c, d] => a + 256 * b + 65536 * c + 16777216 * d
  | _ => 0

/-- Read the u32 stored little-endian at offset `p` of the buffer. -/
def readU32 (out : List Nat) (p : Nat) : Nat :=
  decodeU32 ((out.drop p).take 4)

/-- Splice `bs` into the buffer at offset `p`, replacing `bs.length` bytes
(the model of seek-back, overwrite, seek-forward). -/
def patchBytes (out : List Nat) (p : Nat) (bs : List Nat) : List Nat :=
  out.take p ++ bs ++ out.drop (p + bs.length)

/-- The signature codes that form a complete one-character type. -/
def basicChar (c : Char) : Bool :=
  c = 'y' || c = 'b' || c = 'n' || c = 'q' || c = 'i' || c = 'u' ||
  c = 'x' || c = 't' || c = 'd' || c = 's' || c = 'o' || c = 'g' ||
  c = 'h' || c = 'v'

/-- Distance (in characters, inclusive) from the current point to the bracket
closing the currently `depth`-nested container. Modelled from the spec:
part of the signature parser (§4.A), not in this snapshot. -/
def closeLen : Nat → List Char → Option Nat
  | _, [] => none
  | depth, c :: rest =>
    if c = '(' || c = '{' then (closeLen (depth + 1) rest).map (· + 1)
    else if c = ')' || c = '}' then
      if depth = 0 then some 1 else (closeLen (depth - 1) rest).map (· + 1)
    else (closeLen depth rest).map (· + 1)

/-- `SignatureParser::next_signature`: length of the next complete single-type
signature. Modelled from the spec (§4.A "slice next complete sub-signature"):
the signature parser is not in this snapshot. -/
def nextSigLen : List Char → Option Nat
  | [] => none
  | 'a' :: rest => (nextSigLen rest).map (· + 1)
  | '(' :: rest => (closeLen 0 rest).map (· + 1)
  | '{' :: rest => (closeLen 0 rest).map (· + 1)
  | c :: _ => if basicChar c then some 1 else none

/-- `alignment_for_signature`: alignment of a signature, decided by its first
code. Modelled from the spec's alignment table (§3); the utils helper is not
in this snapshot. -/
def alignmentFor (sig : List Char) : Option Nat :=
  match sig with
  | [] => none
  | c :: _ =>
    if c = 'y' || c = 'g' || c = 'v' then some 1
    else if c = 'n' || c = 'q' then some 2
    else if c = 'b' || c = 'i' || c = 'u' || c = 'h' || c = 's' || c = 'o' || c = 'a' then some 4
    else if c = 'x' || c = 't' || c = 'd' || c = '(' || c = '{' then some 8
    else none

/-- `SignatureParser::skip_char`: drop one signature character, failing on an
empty signature. Modelled from the spec (§4.A). -/
def skip1 : List Char → Except DBusError (List Char)
  | [] => .error .invalidSignature
  | _ :: rest => .ok rest

/-- `SignatureParser::skip_chars`: drop `n` signature characters, failing if
fewer remain. Modelled from the spec (§4.A). -/
def skipChars (n : Nat) (sig : List Char) : Except DBusError (List Char) :=
  if n ≤ sig.length then .ok (sig.drop n) else .error .invalidSignature

/-- `ContainerDepths::inc_array`: fail with `MaxDepthReached` past 32 nested
arrays. Modelled from the spec (§3, §4.D step 5: limit 32): the
container-depths module is not in this snapshot. -/
def incArray (st : SerState) : Except DBusError SerState :=
  if st.arrayDepth ≥ 32 then .error .maxDepthReached
  else .ok { st with arrayDepth := st.arrayDepth + 1 }

/-- `ContainerDepths::dec_array`. -/
def decArray (st : SerState) : SerState :=
  { st with arrayDepth := st.arrayDepth - 1 }

/-- `ContainerDepths::inc_structure`: structs, variants and dict entries share
a combined limit of 32. Modelled from the spec (§3). -/
def incStruct (st : SerState) : Except DBusError SerState :=
  if st.structDepth ≥ 32 then .error .maxDepthReached
  else .ok { st with structDepth := st.structDepth + 1 }

/-- `SerializerCommon::prep_serialize_basic::<T>`: check the next signature
code is `c`, consume it, and pad to `align`. Modelled from the spec (§4.C). -/
def prepBasic (c : Char) (align : Nat) (sig : List Char) (st : SerState) :
    Except DBusError (List Char × SerState) :=
  match sig with
  | [] => .error .invalidSignature
  | c' :: rest =>
    if c' = c then .ok (rest, addPadding st align)
    else .error .invalidSignature

/-- The state of `SeqSerializer` (ser.rs lines 362–371) just after
`serialize_seq`: the recorded `start`, the element alignment and
signature length, the first element's padding, plus the cloned parser
position (`sigElem`) and the common state. -/
structure SeqSerializer where
  start : Nat
  elementAlignment : Nat
  elementSignatureLen : Nat
  firstPadding : Nat
  sigElem : List Char
  st : SerState
deriving DecidableEq, Repr

/-- `Serializer::serialize_seq` (ser.rs lines 274–300): skip the `a`, pad
to 4, write a u32 zero placeholder, compute the element signature and its
alignment, pad for the first element even when the array is empty, record
`start = bytes_written`, and increment the array depth. -/
def serializeSeqStart (sig : List Char) (st : SerState) :
    Except DBusError SeqSerializer := do
  let sig1 ← skip1 sig
  let st1 := addPadding st 4
  let st2 := writeBytes st1 (u32le 0)
  match nextSigLen sig1 with
  | none => .error .invalidSignature
  | some elemLen =>
    match alignmentFor sig1 with
    | none => .error .invalidSignature
    | some elemAlignment =>
      let firstPadding := paddingOf st2 elemAlignment
      let st3 := addPadding st2 elemAlignment
      let start := st3.bytesWritten
      let st4 ← incArray st3
      .ok { start := start, elementAlignment := elemAlignment,
            elementSignatureLen := elemLen, firstPadding := firstPadding,
            sigElem := sig1, st := st4 }

/-- `SeqSerializer::end_seq` (ser.rs lines 378–407): skip the element
signature, compute `array_len = bytes_written - start`, seek back over the
elements, the first-element padding and the 4 placeholder bytes, overwrite
the placeholder with `array_len`, seek forward again, and decrement the
array depth. `st5` is the common state after the last element. -/
def endSeq (sq : SeqSerializer) (st5 : SerState) :
    Except DBusError (List Char × SerState) := do
  let sig2 ← skipChars sq.elementSignatureLen sq.sigElem
  let arrayLen := st5.bytesWritten - sq.start
  let totalArrayLen := arrayLen + sq.firstPadding + 4
  let st6 := { st5 with
    out := patchBytes st5.out (st5.out.length - totalArrayLen) (u32le arrayLen) }
  .ok (sig2, decArray st6)

/-- The in-memory values the serializer under verification is run on
(the fragment of serde's data model exercised by ser.rs that the claims
need; variants and floats are outside this fragment). Strings are byte
lists, matching Rust's `&str` as UTF-8 bytes. -/
inductive Value where
  | u8 (v : Nat)
  | boolean (b : Bool)
  | i16 (v : Int)
  | u16 (v : Nat)
  | i32 (v : Int)
  | u32 (v : Nat)
  | i64 (v : Int)
  | u64 (v : Nat)
  | str (s : List Nat)
  | array (elems : List Value)
  | strct (fields : List Value)
deriving Repr

instance {ε α : Type} [DecidableEq ε] [DecidableEq α] : DecidableEq (Except ε α) := fun
  | .ok a, .ok b =>
    if h : a = b then .isTrue (by rw [h])
    else .isFalse (by intro he; cases he; exact h rfl)
  | .ok _, .error _ => .isFalse (by intro h; cases h)
  | .error _, .ok _ => .isFalse (by intro h; cases h)
  | .error e, .error f =>
    if h : e = f then .isTrue (by rw [h])
    else .isFalse (by intro he; cases he; exact h rfl)

/-- `Serializer::serialize_str` (ser.rs lines 136–185): reject interior NUL
with `InvalidValue`; for `s`/`o` pad to 4 and write a u32 length; for `g` and
the inline signature of `v` write a u8 length (for `v` the string is also
stashed as `value_sign`); then the bytes and one NUL terminator. -/
def serializeStr (s : List Nat) (sig : List Char) (st : SerState) :
    Except DBusError (List Char × SerState) :=
  if 0 ∈ s then .error .invalidValue
  else
    match sig with
    | [] => .error .invalidSignature
    | c :: rest =>
      let st := if c = 'v' then { st with valueSign := some s } else st
      if c = 'o' || c = 's' then
        let st := addPadding st 4
        let st := writeBytes st (u32le s.length)
        .ok (rest, writeBytes st (s ++ [0]))
      else if c = 'g' || c = 'v' then
        let st := writeBytes st [s.length % 256]
        .ok (rest, writeBytes st (s ++ [0]))
      else .error .invalidSignature

mutual

/-- The D-Bus serializer of ser.rs, driven by the value while consuming the
signature, threading the common state. Each constructor follows the
corresponding `serialize_*` method; `array` follows `serialize_seq`, the
per-element parser-clone discipline of `SerializeSeq::serialize_element`,
and `end_seq`'s seek-back length patch; `strct` follows
`StructSerializer::structure`/`unit` and `end_struct`. -/
def serializeValue : Value → List Char → SerState →
    Except DBusError (List Char × SerState)
  | .u8 v, sig, st => do
    let (sig, st) ← prepBasic 'y' 1 sig st
    .ok (sig, writeBytes st [v % 256])
  | .boolean b, sig, st => do
    let (sig, st) ← prepBasic 'b' 4 sig st
    .ok (sig, writeBytes st (u32le (if b then 1 else 0)))
  | .i16 v, sig, st => do
    let (sig, st) ← prepBasic 'n' 2 sig st
    .ok (sig, writeBytes st (u16le (v.emod 65536).toNat))
  | .u16 v, sig, st => do
    let (sig, st) ← prepBasic 'q' 2 sig st
    .ok (sig, writeBytes st (u16le v))
  | .i32 v, sig, st =>
    -- serialize_i32: an `h` in the signature turns the value into an fd
    -- index; otherwise an ordinary i32.
    match sig with
    | 'h' :: rest =>
      let st := addPadding st 4
      let idx := st.fds
      let st := { st with fds := st.fds + 1 }
      .ok (rest, writeBytes st (u32le idx))
    | _ => do
      let (sig, st) ← prepBasic 'i' 4 sig st
      .ok (sig, writeBytes st (u32le (v.emod 4294967296).toNat))
  | .u32 v, sig, st => do
    let (sig, st) ← prepBasic 'u' 4 sig st
    .ok (sig, writeBytes st (u32le v))
  | .i64 v, sig, st => do
    let (sig, st) ← prepBasic 'x' 8 sig st
    .ok (sig, writeBytes st (u64le (v.emod 18446744073709551616).toNat))
  | .u64 v, sig, st => do
    let (sig, st) ← prepBasic 't' 8 sig st
    .ok (sig, writeBytes st (u64le v))
  | .str s, sig, st => serializeStr s sig st
  | .array elems, sig, st => do
    let sq ← serializeSeqStart sig st
    let st5 ← serializeElems elems sq.sigElem sq.st
    endSeq sq st5
  | .strct [], sig, st => do
    -- serialize_struct with len == 0: StructSerializer::unit writes `0u8`.
    let (sig, st) ← prepBasic 'y' 1 sig st
    .ok (sig, writeBytes st [0])
  | .strct (f :: fs), sig, st =>
    -- StructSerializer::structure: the next code must open a struct or dict
    -- entry; pad to the container alignment, skip the opener, bump the
    -- structure depth, serialize the fields, skip the closer, restore depths.
    match sig with
    | [] => .error .invalidSignature
    | c :: _ =>
      if c = '(' || c = '{' then do
        match alignmentFor sig with
        | none => .error .invalidSignature
        | some alignment =>
          let st1 := addPadding st alignment
          let sigIn ← skip1 sig
          let savedArray := st1.arrayDepth
          let savedStruct := st1.structDepth
          let st2 ← incStruct st1
          let (sigOut, st3) ← serializeFields (f :: fs) sigIn st2
          let sigEnd ← skipChars 1 sigOut
          .ok (sigEnd, { st3 with arrayDepth := savedArray, structDepth := savedStruct })
      else .error .invalidSignature

/-- `SerializeSeq::serialize_element` iterated: every element re-parses the
same element signature from a disposable clone of the parser. -/
def serializeElems : List Value → List Char → SerState →
    Except DBusError SerState
  | [], _, st => .ok st
  | v :: rest, sig, st => do
    let (_, st') ← serializeValue v sig st
    serializeElems rest sig st'

/-- Struct fields are serialized consecutively, each consuming its own part
of the signature. -/
def serializeFields : List Value → List Char → SerState →
    Except DBusError (List Char × SerState)
  | [], sig, st => .ok (sig, st)
  | v :: rest, sig, st => do
    let (sig', st') ← serializeValue v sig st
    serializeFields rest sig' st'

end

/-- Fresh serializer state over an empty writer at base offset `base`
(`Serializer::new` with `bytes_written = 0`). -/
def initState (base : Nat) : SerState :=
  { base := base, out := [], bytesWritten := 0, fds := 0, valueSign := none,
    arrayDepth := 0, structDepth := 0 }

/-- Message header field codes (zbus `FieldCode`, spec §3). -/
inductive FieldCode where
  | path
  | interface
  | member
  | errorName
  | replySerial
  | destination
  | sender
  | signature
  | unixFDs
deriving DecidableEq, Repr

/-- Message header fields (zbus `Field`); name-like values are character
lists, pre-validated per the spec's scoping. Namespaced because Lean
already has an algebraic `Field`. -/
inductive Message.Field where
  | path (p : List Char)
  | interface (i : List Char)
  | member (m : List Char)
  | errorName (e : List Char)
  | replySerial (n : Nat)
  | destination (d : List Char)
  | sender (s : List Char)
  | signature (s : List Char)
  | unixFDs (n : Nat)
deriving DecidableEq, Repr

open Message in
/-- The code of a field. -/
def Message.Field.code : Field → FieldCode
  | .path _ => .path
  | .interface _ => .interface
  | .member _ => .member
  | .errorName _ => .errorName
  | .replySerial _ => .replySerial
  | .destination _ => .destination
  | .sender _ => .sender
  | .signature _ => .signature
  | .unixFDs _ => .unixFDs

open Message

/-- `Fields::replace`: drop any field with the same code, then append.
Modelled from the spec (§4.F: "Field insertion through the builder replaces
any existing value for the same code", insertion order preserved): the
fields module is not in this snapshot. -/
def Fields.replace (fs : List Field) (f : Field) : List Field :=
  (fs.filter fun g => decide (g.code ≠ f.code)) ++ [f]

/-- `Fields::add`: append a field. Modelled from the spec (§4.F). -/
def Fields.add (fs : List Field) (f : Field) : List Field :=
  fs ++ [f]

/-- `Fields::remove`: drop every field with the given code. Modelled from
the spec (§4.F). -/
def Fields.remove (fs : List Field) (c : FieldCode) : List Field :=
  fs.filter fun g => decide (g.code ≠ c)

/-- Primary message header (spec §3); endian and protocol version are fixed
and elided. -/
structure PrimaryHeader where
  msgType : Nat
  flags : Nat
  bodyLen : Nat
  serial : Nat
deriving DecidableEq, Repr

/-- Message header: primary part plus the field array. -/
structure Header where
  primary : PrimaryHeader
  fields : List Field
deriving DecidableEq, Repr

/-- `Header::sender`: the first SENDER field's value. Modelled from the
spec (§4.F field lookup): the header module is not in this snapshot. -/
def Header.sender (h : Header) : Option (List Char) :=
  h.fields.findSome? fun f =>
    match f with
    | .sender s => some s
    | _ => none

/-- First field with the given code (the builder's field lookup). -/
def getField (h : Header) (c : FieldCode) : Option Field :=
  h.fields.find? fun f => decide (f.code = c)

/-- `Builder::reply_to` (builder.rs lines 179–188): replace REPLY_SERIAL
with the reference header's serial; if the reference header has a SENDER,
also replace DESTINATION with it. -/
def replyTo (b : Header) (h : Header) : Header :=
  let b1 : Header :=
    { b with fields := Fields.replace b.fields (.replySerial h.primary.serial) }
  match Header.sender h with
  | some s => { b1 with fields := Fields.replace b1.fields (.destination s) }
  | none => b1

/-- `impl From<Header> for Builder` (builder.rs lines 351–360): remove the
SIGNATURE and UNIX_FDS fields; everything else is carried over. -/
def builderFromHeader (h : Header) : Header :=
  { h with fields := Fields.remove (Fields.remove h.fields .signature) .unixFDs }

/-- Lines 288–294 of `Builder::build_generic`: unless the body signature is
empty, strip the outer struct parens when it starts with `(` and add the
result as the SIGNATURE field. -/
def addBodySignature (h : Header) (sig : List Char) : Header :=
  if sig.isEmpty then h
  else
    let sig := if sig.head? = some '(' then (sig.drop 1).dropLast else sig
    { h with fields := Fields.add h.fields (.signature sig) }

/-- zbus `utils::padding_for_8_bytes`. Modelled from the spec (§4.G step 6):
the utils module is not in this snapshot. -/
def paddingFor8Bytes (n : Nat) : Nat :=
  (8 - n % 8) % 8

/-- zbus `header::MAX_MESSAGE_SIZE`. Modelled from the spec (§3 invariants):
2^27 bytes; the header module is not in this snapshot. -/
def MAX_MESSAGE_SIZE : Nat := 134217728

/-- Lines 307–314 of `Builder::build_generic`: body padding, total length
and the `ExcessData` size check; on success the total is the allocation. -/
def checkMessageSize (hdrLen bodyLen : Nat) : Except DBusError Nat :=
  let bodyPadding := paddingFor8Bytes hdrLen
  let bodyOffset := hdrLen + bodyPadding
  let totalLen := bodyOffset + bodyLen
  if totalLen > MAX_MESSAGE_SIZE then .error .excessData else .ok totalLen

/-- `impl Serialize for Optional` (optional.rs lines 84–98): `Some`
serializes the inner value, `None` serializes `T::null_value()`; the
serializer itself is a parameter, as in the source. -/
def Optional.serialize {T A : Type} (nullValue : T) (ser : T → A) :
    Option T → A
  | some v => ser v
  | none => ser nullValue

/-- `impl Default for Optional` (optional.rs lines 145–148): the `None`
case. -/
def Optional.defaultNone {T : Type} : Option T := none

/-- `impl Deserialize for Optional` (optional.rs lines 100–117), applied to
the already-decoded inner `NoneType` value: equal to `null_value()` gives
`None`, anything else is converted with `try_into` and wrapped in `Some`. -/
def Optional.deserialize {N T : Type} [DecidableEq N] (nullValue : N)
    (tryInto : N → Except DBusError T) (value : N) :
    Except DBusError (Option T) :=
  if value = nullValue then .ok none
  else (tryInto value).map some

/-- `n + 1` nested arrays with an empty innermost array. -/
def nestedArray : Nat → Value
  | 0 => .array []
  | n + 1 => .array [nestedArray n]

/-- The signature of `nestedArray n`: `n + 1` copies of `a`, then `y`. -/
def nestedArraySig (n : Nat) : List Char :=
  List.replicate (n + 1) 'a' ++ ['y']

/-- Concrete reference header for the reply-correlation scenario: serial 7,
sender `:1.42`. -/
def refHeader142 : Header :=
  { primary := { msgType := 1, flags := 0, bodyLen := 0, serial := 7 },
    fields := [.sender [':', '1', '.', '4', '2']] }

/-- Concrete fresh method-return builder header (`Builder::new`): zero
serial, no fields. -/
def freshReturnHeader : Header :=
  { primary := { msgType := 2, flags := 0, bodyLen := 0, serial := 0 },
    fields := [] }


theorem bind_ok_eq {ε α β : Type} (a : α) (g : α → Except ε β) :
    (Except.ok a >>= g) = g a := rfl

theorem bind_error_eq {ε α β : Type} (e : ε) (g : α → Except ε β) :
    ((Except.error e : Except ε α) >>= g) = .error e := rfl

@[simp] theorem writeBytes_base (st : SerState) (bs : List Nat) :
    (writeBytes st bs).base = st.base := rfl

@[simp] theorem writeBytes_out (st : SerState) (bs : List Nat) :
    (writeBytes st bs).out = st.out ++ bs := rfl

@[simp] theorem writeBytes_bytesWritten (st : SerState) (bs : List Nat) :
    (writeBytes st bs).bytesWritten = st.bytesWritten + bs.length := rfl

@[simp] theorem writeBytes_arrayDepth (st : SerState) (bs : List Nat) :
    (writeBytes st bs).arrayDepth = st.arrayDepth := rfl

@[simp] theorem writeBytes_structDepth (st : SerState) (bs : List Nat) :
    (writeBytes st bs).structDepth = st.structDepth := rfl

@[simp] theorem addPadding_base (st : SerState) (a : Nat) :
    (addPadding st a).base = st.base := rfl

@[simp] theorem addPadding_arrayDepth (st : SerState) (a : Nat) :
    (addPadding st a).arrayDepth = st.arrayDepth := rfl

@[simp] theorem addPadding_structDepth (st : SerState) (a : Nat) :
    (addPadding st a).structDepth = st.structDepth := rfl

theorem u32le_length (n : Nat) : (u32le n).length = 4 := rfl

theorem nextSigLen_cons_a (rest : List Char) :
    nextSigLen ('a' :: rest) = (nextSigLen rest).map (· + 1) := rfl

theorem nextSigLen_nested (n : Nat) :
    nextSigLen (List.replicate n 'a' ++ ['y']) = some (n + 1) := by
  induction n with
  | zero => rfl
  | succ n ih =>
    rw [List.replicate_succ, List.cons_append, nextSigLen_cons_a, ih]
    rfl

theorem alignmentFor_nested (n : Nat) :
    alignmentFor (List.replicate n 'a' ++ ['y']) =
      some (if n = 0 then 1 else 4) := by
  cases n with
  | zero => rfl
  | succ n =>
    rw [List.replicate_succ, List.cons_append]
    rfl

theorem nestedArraySig_zero : nestedArraySig 0 = 'a' :: ['y'] := rfl

theorem nestedArraySig_succ (n : Nat) :
    nestedArraySig (n + 1) = 'a' :: nestedArraySig n := by
  simp [nestedArraySig, List.replicate_succ]

/-- `serialize_seq` succeeds when the element signature parses, its
alignment is known and fewer than 32 arrays are open; the element
signature is handed over verbatim and the array depth is incremented. -/
theorem serializeSeqStart_ok_of (c : Char) (sig1 : List Char)
    (elemLen align : Nat) (st : SerState)
    (h1 : nextSigLen sig1 = some elemLen)
    (h2 : alignmentFor sig1 = some align) (h3 : st.arrayDepth < 32) :
    ∃ sq, serializeSeqStart (c :: sig1) st = .ok sq ∧
      sq.sigElem = sig1 ∧ sq.elementSignatureLen = elemLen ∧
      sq.st.arrayDepth = st.arrayDepth + 1 := by
  simp only [serializeSeqStart, skip1, bind_ok_eq, h1, h2, paddingOf, incArray,
    addPadding_arrayDepth, writeBytes_arrayDepth, ge_iff_le]
  rw [if_neg (by omega)]
  simp only [bind_ok_eq]
  exact ⟨_, rfl, rfl, rfl, by simp⟩

/-- `serialize_seq` fails with `MaxDepthReached` when 32 arrays are already
open (and nothing else fails first). -/
theorem serializeSeqStart_err_of (c : Char) (sig1 : List Char)
    (elemLen align : Nat) (st : SerState)
    (h1 : nextSigLen sig1 = some elemLen)
    (h2 : alignmentFor sig1 = some align) (h3 : 32 ≤ st.arrayDepth) :
    serializeSeqStart (c :: sig1) st = .error .maxDepthReached := by
  simp only [serializeSeqStart, skip1, bind_ok_eq, h1, h2, paddingOf, incArray,
    addPadding_arrayDepth, writeBytes_arrayDepth, ge_iff_le]
  rw [if_pos (by omega)]
  rfl

/-- `end_seq` always succeeds when the element signature is long enough to
skip, returning the advanced signature and the length-patched state. -/
theorem endSeq_ok (sq : SeqSerializer) (st5 : SerState)
    (h : sq.elementSignatureLen ≤ sq.sigElem.length) :
    endSeq sq st5 = .ok (sq.sigElem.drop sq.elementSignatureLen,
      decArray { st5 with
        out := patchBytes st5.out
                 (st5.out.length -
                   (st5.bytesWritten - sq.start + sq.firstPadding + 4))
                 (u32le (st5.bytesWritten - sq.start)) }) := by
  simp [endSeq, skipChars, h, bind_ok_eq]

/-- Serializing `n + 1` nested arrays from an arbitrary state: success when
the open-array count stays within 32, `MaxDepthReached` as soon as it would
pass 32. -/
theorem nestedArray_depth (n : Nat) : ∀ st : SerState,
    (st.arrayDepth + (n + 1) ≤ 32 →
      ∃ r, serializeValue (nestedArray n) (nestedArraySig n) st = .ok r) ∧
    (32 < st.arrayDepth + (n + 1) →
      serializeValue (nestedArray n) (nestedArraySig n) st =
        .error .maxDepthReached) := by
  induction n with
  | zero =>
    intro st
    constructor
    · intro h
      obtain ⟨sq, hsq, hsig, hlen, hdep⟩ :=
        serializeSeqStart_ok_of 'a' ['y'] 1 1 st rfl rfl (by omega)
      rw [nestedArraySig_zero]
      simp only [nestedArray, serializeValue, hsq, bind_ok_eq, serializeElems]
      exact ⟨_, endSeq_ok sq sq.st (by simp [hsig, hlen])⟩
    · intro h
      have herr := serializeSeqStart_err_of 'a' ['y'] 1 1 st rfl rfl (by omega)
      rw [nestedArraySig_zero]
      simp only [nestedArray, serializeValue, herr, bind_error_eq]
  | succ n ih =>
    intro st
    have h1 : nextSigLen (nestedArraySig n) = some (n + 2) := by
      simpa [nestedArraySig] using nextSigLen_nested (n + 1)
    have h2 : alignmentFor (nestedArraySig n) = some 4 := by
      simpa [nestedArraySig] using alignmentFor_nested (n + 1)
    constructor
    · intro h
      obtain ⟨sq, hsq, hsig, hlen, hdep⟩ :=
        serializeSeqStart_ok_of 'a' (nestedArraySig n) (n + 2) 4 st h1 h2
          (by omega)
      obtain ⟨⟨sigI, stI⟩, hin⟩ := (ih sq.st).1 (by omega)
      rw [nestedArraySig_succ]
      simp only [nestedArray, serializeValue, hsq, bind_ok_eq, hsig,
        serializeElems, hin]
      exact ⟨_, endSeq_ok sq stI (by simp [hsig, hlen, nestedArraySig])⟩
    · intro h
      by_cases hd : 32 ≤ st.arrayDepth
      · have herr := serializeSeqStart_err_of 'a' (nestedArraySig n) (n + 2) 4
          st h1 h2 hd
        rw [nestedArraySig_succ]
        simp only [nestedArray, serializeValue, herr, bind_error_eq]
      · obtain ⟨sq, hsq, hsig, hlen, hdep⟩ :=
          serializeSeqStart_ok_of 'a' (nestedArraySig n) (n + 2) 4 st h1 h2
            (by omega)
        have hin := (ih sq.st).2 (by omega)
        rw [nestedArraySig_succ]
        simp only [nestedArray, serializeValue, hsq, bind_ok_eq, hsig,
          serializeElems, hin, bind_error_eq]

/-- C8: serializing the string "hello" against signature `s` with
little-endian byte order at base offset 0 emits exactly the ten bytes
`05 00 00 00 'h' 'e' 'l' 'l' 'o' 00` — a u32 length of 5 excluding the
NUL, the UTF-8 bytes, one NUL terminator, and no leading padding. -/
theorem hello_string_serialization :
    serializeValue (.str [104, 101, 108, 108, 111]) ['s'] (initState 0) =
      .ok ([], { initState 0 with
        out := [5, 0, 0, 0, 104, 101, 108, 108, 111, 0],
        bytesWritten := 10 }) := by
  decide

/-- C4: serializing any string containing an interior NUL byte fails with
`InvalidValue` whatever the signature code, so in particular for `s`, `o`,
`g` and the inline signature of `v`; no bytes of the string are emitted
since the error precedes any write. -/
theorem interior_nul_string_rejected (s : List Nat) (sig : List Char)
    (st : SerState) (h : 0 ∈ s) :
    serializeValue (.str s) sig st = .error .invalidValue := by
  simp [serializeValue, serializeStr, h]

theorem interior_nul_string_rejected_witness :
    (0 : Nat) ∈ [104, 0] ∧
      serializeValue (.str [104, 0]) ['s'] (initState 0) =
        .error .invalidValue :=
  ⟨by decide,
   interior_nul_string_rejected [104, 0] ['s'] (initState 0) (by decide)⟩

/-- C5: the build-time size check fails with `ExcessData` exactly when
serialized-header length plus `(8 - hdrLen % 8) % 8` body padding plus body
length exceeds 2^27 bytes, and passes (returning that total) otherwise. -/
theorem message_size_check_excess_data (hdrLen bodyLen : Nat) :
    (hdrLen + paddingFor8Bytes hdrLen + bodyLen > 134217728 →
      checkMessageSize hdrLen bodyLen = .error .excessData) ∧
    (hdrLen + paddingFor8Bytes hdrLen + bodyLen ≤ 134217728 →
      checkMessageSize hdrLen bodyLen =
        .ok (hdrLen + paddingFor8Bytes hdrLen + bodyLen)) := by
  constructor <;> intro h <;>
    simp [checkMessageSize, MAX_MESSAGE_SIZE] <;> omega

theorem message_size_check_excess_data_witness :
    checkMessageSize 16 134217728 = .error .excessData ∧
      checkMessageSize 16 0 = .ok (16 + paddingFor8Bytes 16 + 0) :=
  ⟨(message_size_check_excess_data 16 134217728).1 (by decide),
   (message_size_check_excess_data 16 0).2 (by decide)⟩

/-- C1: during message assembly a non-empty body signature beginning with
`(` has its first and last characters stripped before being added as the
SIGNATURE field, and a non-empty signature not beginning with `(` is added
unchanged. -/
theorem build_signature_strips_struct_parens (h : Header) (sig : List Char)
    (hne : sig ≠ []) :
    (sig.head? = some '(' →
      (addBodySignature h sig).fields =
        h.fields ++ [.signature ((sig.drop 1).dropLast)]) ∧
    (sig.head? ≠ some '(' →
      (addBodySignature h sig).fields = h.fields ++ [.signature sig]) := by
  cases sig with
  | nil => exact absurd rfl hne
  | cons c rest =>
    constructor <;> intro hh <;>
      simp_all [addBodySignature, Fields.add]

theorem build_signature_strips_struct_parens_witness :
    (addBodySignature freshReturnHeader ['(', 'i', 'i', ')']).fields =
      freshReturnHeader.fields ++ [.signature ['i', 'i']] :=
  (build_signature_strips_struct_parens freshReturnHeader
    ['(', 'i', 'i', ')'] (by decide)).1 (by decide)

/-- C9: `Optional` serialization forwards `Some v` to the serialization of
`v` and serializes the default `None` as the null value; deserialization
yields `None` exactly when the decoded inner value equals the null value;
hence round-tripping `Some null_value` returns `None`, not
`Some null_value`. -/
theorem optional_serialization_roundtrip {T : Type} [DecidableEq T]
    (nullValue : T) (ser : T → List Nat) (de : List Nat → T)
    (hinv : ∀ t, de (ser t) = t) :
    (∀ v, Optional.serialize nullValue ser (some v) = ser v) ∧
    (Optional.serialize nullValue ser Optional.defaultNone = ser nullValue) ∧
    (∀ n, Optional.deserialize nullValue Except.ok n = .ok none ↔
      n = nullValue) ∧
    (Optional.deserialize nullValue Except.ok
      (de (Optional.serialize nullValue ser (some nullValue))) = .ok none) ∧
    (Optional.deserialize nullValue Except.ok
      (de (Optional.serialize nullValue ser (some nullValue))) ≠
        .ok (some nullValue)) := by
  refine ⟨fun v => rfl, rfl, fun n => ?_, ?_, ?_⟩
  · constructor
    · intro hc
      by_cases hn : n = nullValue
      · exact hn
      · simp [Optional.deserialize, hn, Except.map] at hc
    · intro hn
      simp [Optional.deserialize, hn]
  · simp [Optional.serialize, hinv, Optional.deserialize]
  · simp [Optional.serialize, hinv, Optional.deserialize]

theorem optional_serialization_roundtrip_witness :
    Optional.deserialize (0 : Nat) Except.ok
      ((fun l : List Nat => l.headD 0)
        (Optional.serialize 0 (fun n => [n]) (some 0))) = .ok none :=
  (optional_serialization_roundtrip 0 (fun n => [n]) (fun l => l.headD 0)
    (fun _ => rfl)).2.2.2.1

/-- C6: serializing 33 nested arrays fails with `MaxDepthReached` (the
array-depth counter refuses to grow past 32), while every nesting of at
most 32 arrays serializes successfully. -/
theorem array_depth_limit :
    serializeValue (nestedArray 32) (nestedArraySig 32) (initState 0) =
      .error .maxDepthReached ∧
    ∀ n, n < 32 →
      ∃ r, serializeValue (nestedArray n) (nestedArraySig n)
        (initState 0) = .ok r := by
  constructor
  · exact (nestedArray_depth 32 (initState 0)).2 (by simp [initState])
  · intro n hn
    exact (nestedArray_depth n (initState 0)).1 (by simp [initState]; omega)

theorem array_depth_limit_witness :
    ∃ r, serializeValue (nestedArray 31) (nestedArraySig 31)
      (initState 0) = .ok r :=
  array_depth_limit.2 31 (by omega)

theorem grow_step (base : List Nat) (st0 : SerState) (bs : List Nat)
    (h : st0.out.length = st0.bytesWritten ∧ ∃ t, st0.out = base ++ t) :
    (writeBytes st0 bs).out.length = (writeBytes st0 bs).bytesWritten ∧
    ∃ t, (writeBytes st0 bs).out = base ++ t := by
  obtain ⟨h1, t, h2⟩ := h
  exact ⟨by simp [h1], ⟨t ++ bs, by simp [h2]⟩⟩

theorem grow_refl (st0 : SerState) (h : st0.out.length = st0.bytesWritten) :
    st0.out.length = st0.bytesWritten ∧ ∃ t, st0.out = st0.out ++ t :=
  ⟨h, ⟨[], by simp⟩⟩

theorem append_chain {a b c : List Nat} (h1 : ∃ t, b = a ++ t)
    (h2 : ∃ t, c = b ++ t) : ∃ t, c = a ++ t := by
  obtain ⟨t1, rfl⟩ := h1
  obtain ⟨t2, rfl⟩ := h2
  exact ⟨t1 ++ t2, by simp⟩

theorem patch_mid (pre mid post bs : List Nat) (h : bs.length = mid.length) :
    patchBytes (pre ++ mid ++ post) pre.length bs = pre ++ bs ++ post := by
  unfold patchBytes
  congr 1
  · rw [List.append_assoc, List.take_left]
  · congr 1
    rw [h, ← List.length_append, List.drop_left]

theorem prepBasic_ok_inv {c : Char} {a : Nat} {sig : List Char}
    {st : SerState} {sig1 : List Char} {st1 : SerState}
    (h : prepBasic c a sig st = .ok (sig1, st1)) :
    sig = c :: sig1 ∧ st1 = addPadding st a := by
  cases sig with
  | nil => simp [prepBasic] at h
  | cons c0 rest =>
    simp only [prepBasic] at h
    split at h
    · rename_i hc
      simp only [Except.ok.injEq, Prod.mk.injEq] at h
      exact ⟨by rw [hc, h.1], h.2.symm⟩
    · simp at h

theorem basicCase_grow (c : Char) (a : Nat) (bs : List Nat)
    (sig : List Char) (st : SerState) (sig' : List Char) (st' : SerState)
    (hok : (do
      let (sig1, st1) ← prepBasic c a sig st
      (Except.ok (sig1, writeBytes st1 bs) :
        Except DBusError (List Char × SerState))) = .ok (sig', st'))
    (hinv : st.out.length = st.bytesWritten) :
    st'.out.length = st'.bytesWritten ∧ ∃ t, st'.out = st.out ++ t := by
  cases hp : prepBasic c a sig st with
  | error e =>
    rw [hp, bind_error_eq] at hok
    exact absurd hok (by simp)
  | ok p =>
    obtain ⟨sig1, st1⟩ := p
    rw [hp, bind_ok_eq] at hok
    simp only [Except.ok.injEq, Prod.mk.injEq] at hok
    obtain ⟨-, hst⟩ := hok
    obtain ⟨-, hpad⟩ := prepBasic_ok_inv hp
    subst hst hpad
    exact grow_step st.out _ bs (grow_step st.out st _ (grow_refl st hinv))

theorem serializeStr_grow (s : List Nat) (sig : List Char) (st : SerState)
    (sig' : List Char) (st' : SerState)
    (hok : serializeStr s sig st = .ok (sig', st'))
    (hinv : st.out.length = st.bytesWritten) :
    st'.out.length = st'.bytesWritten ∧ ∃ t, st'.out = st.out ++ t := by
  unfold serializeStr at hok
  split at hok
  · exact absurd hok (by simp)
  · split at hok
    · exact absurd hok (by simp)
    · rename_i c rest
      split at hok <;>
      · split at hok
        · simp only [Except.ok.injEq, Prod.mk.injEq] at hok
          obtain ⟨-, hst⟩ := hok
          subst hst
          exact grow_step st.out _ _ (grow_step st.out _ _
            (grow_step st.out _ _ ⟨hinv, ⟨[], by simp⟩⟩))
        · split at hok
          · simp only [Except.ok.injEq, Prod.mk.injEq] at hok
            obtain ⟨-, hst⟩ := hok
            subst hst
            exact grow_step st.out _ _
              (grow_step st.out _ _ ⟨hinv, ⟨[], by simp⟩⟩)
          · exact absurd hok (by simp)

/-- Full inversion of a successful `serialize_seq` opening: what the
signature must have looked like, which bytes were emitted (alignment
padding, the zero placeholder, then the first element's padding), and how
the counters moved. -/
theorem serializeSeqStart_ok_inv (sig : List Char) (st : SerState)
    (sq : SeqSerializer) (h : serializeSeqStart sig st = .ok sq) :
    ∃ c, sig = c :: sq.sigElem ∧
      nextSigLen sq.sigElem = some sq.elementSignatureLen ∧
      alignmentFor sq.sigElem = some sq.elementAlignment ∧
      st.arrayDepth < 32 ∧
      sq.firstPadding =
        padCount (st.pos + padCount st.pos 4 + 4) sq.elementAlignment ∧
      sq.st.out = st.out ++ List.replicate (padCount st.pos 4) 0 ++ u32le 0 ++
        List.replicate sq.firstPadding 0 ∧
      sq.st.bytesWritten =
        st.bytesWritten + padCount st.pos 4 + 4 + sq.firstPadding ∧
      sq.start = st.bytesWritten + padCount st.pos 4 + 4 + sq.firstPadding ∧
      sq.st.base = st.base ∧
      sq.st.arrayDepth = st.arrayDepth + 1 := by
  cases sig with
  | nil => simp [serializeSeqStart, skip1, bind_error_eq] at h
  | cons c sig1 =>
    refine ⟨c, ?_⟩
    simp only [serializeSeqStart, skip1, bind_ok_eq] at h
    cases hnl : nextSigLen sig1 with
    | none => rw [hnl] at h; simp at h
    | some elemLen =>
      rw [hnl] at h
      cases hal : alignmentFor sig1 with
      | none => rw [hal] at h; simp at h
      | some align =>
        rw [hal] at h
        simp only [paddingOf, incArray, addPadding_arrayDepth,
          writeBytes_arrayDepth, ge_iff_le] at h
        split at h
        · rw [bind_error_eq] at h
          exact absurd h (by simp)
        · rename_i hd
          rw [bind_ok_eq] at h
          injection h with h
          subst h
          refine ⟨rfl, hnl, hal, by omega, ?_, ?_, ?_, ?_, by simp, by simp⟩
          all_goals
            simp only [SerState.pos, addPadding, writeBytes_out,
              writeBytes_base, writeBytes_bytesWritten, List.length_replicate,
              u32le_length, List.append_assoc]
          all_goals first
          | omega
          | (congr 1; omega)

@[simp] theorem decArray_out (st : SerState) : (decArray st).out = st.out := rfl

@[simp] theorem decArray_bytesWritten (st : SerState) :
    (decArray st).bytesWritten = st.bytesWritten := rfl

mutual

/-- Writer discipline of the serializer: every successful serialization
only appends bytes, and keeps `bytes_written` equal to the number of bytes
in the writer (seek-backs are transient: the array length patch overwrites
bytes this very serializer wrote earlier and returns to the end). -/
theorem serializeValue_grow (v : Value) : ∀ (sig : List Char) (st : SerState)
    (sig' : List Char) (st' : SerState),
    serializeValue v sig st = .ok (sig', st') →
    st.out.length = st.bytesWritten →
    st'.out.length = st'.bytesWritten ∧ ∃ t, st'.out = st.out ++ t := by
  cases v with
  | u8 x =>
    intro sig st sig' st' hok hinv
    exact basicCase_grow 'y' 1 _ sig st sig' st' hok hinv
  | boolean b =>
    intro sig st sig' st' hok hinv
    exact basicCase_grow 'b' 4 _ sig st sig' st' hok hinv
  | i16 x =>
    intro sig st sig' st' hok hinv
    exact basicCase_grow 'n' 2 _ sig st sig' st' hok hinv
  | u16 x =>
    intro sig st sig' st' hok hinv
    exact basicCase_grow 'q' 2 _ sig st sig' st' hok hinv
  | i32 x =>
    intro sig st sig' st' hok hinv
    simp only [serializeValue] at hok
    split at hok
    · simp only [Except.ok.injEq, Prod.mk.injEq] at hok
      obtain ⟨-, hst⟩ := hok
      subst hst
      exact grow_step st.out _ _
        ⟨by simp [addPadding, hinv],
         ⟨List.replicate (padCount st.pos 4) 0, by simp [addPadding]⟩⟩
    · exact basicCase_grow 'i' 4 _ sig st sig' st' hok hinv
  | u32 x =>
    intro sig st sig' st' hok hinv
    exact basicCase_grow 'u' 4 _ sig st sig' st' hok hinv
  | i64 x =>
    intro sig st sig' st' hok hinv
    exact basicCase_grow 'x' 8 _ sig st sig' st' hok hinv
  | u64 x =>
    intro sig st sig' st' hok hinv
    exact basicCase_grow 't' 8 _ sig st sig' st' hok hinv
  | str s =>
    intro sig st sig' st' hok hinv
    exact serializeStr_grow s sig st sig' st' hok hinv
  | array elems =>
    intro sig st sig' st' hok hinv
    simp only [serializeValue] at hok
    cases hq : serializeSeqStart sig st with
    | error e => rw [hq, bind_error_eq] at hok; exact absurd hok (by simp)
    | ok sq =>
      rw [hq, bind_ok_eq] at hok
      cases he : serializeElems elems sq.sigElem sq.st with
      | error e => rw [he, bind_error_eq] at hok; exact absurd hok (by simp)
      | ok st5 =>
        rw [he, bind_ok_eq] at hok
        obtain ⟨c, hsig, hnl, hal, hdlt, hfp, hout, hbw, hstart, hbase, hdep⟩ :=
          serializeSeqStart_ok_inv sig st sq hq
        have hsqinv : sq.st.out.length = sq.st.bytesWritten := by
          rw [hout, hbw]
          simp [u32le, hinv]
          omega
        obtain ⟨h5inv, t, h5out⟩ :=
          serializeElems_grow elems sq.sigElem sq.st st5 he hsqinv
        unfold endSeq at hok
        cases hs2 : skipChars sq.elementSignatureLen sq.sigElem with
        | error e => rw [hs2, bind_error_eq] at hok; exact absurd hok (by simp)
        | ok sig2 =>
          rw [hs2, bind_ok_eq] at hok
          simp only [Except.ok.injEq, Prod.mk.injEq] at hok
          obtain ⟨-, hst⟩ := hok
          subst hst
          have hlen5 : st5.out.length = st.out.length + padCount st.pos 4 + 4 +
              sq.firstPadding + t.length := by
            rw [h5out, hout]
            simp [u32le]
            omega
          have harr : st5.bytesWritten - sq.start = t.length := by
            rw [← h5inv, hlen5, hstart, ← hinv]
            omega
          have hpos : st5.out.length - (t.length + sq.firstPadding + 4) =
              (st.out ++ List.replicate (padCount st.pos 4) 0).length := by
            rw [hlen5]
            simp
            omega
          have hsplit : st5.out =
              (st.out ++ List.replicate (padCount st.pos 4) 0) ++ u32le 0 ++
                (List.replicate sq.firstPadding 0 ++ t) := by
            rw [h5out, hout]
            simp [List.append_assoc]
          have hpm := patch_mid
            (st.out ++ List.replicate (padCount st.pos 4) 0) (u32le 0)
            (List.replicate sq.firstPadding 0 ++ t) (u32le t.length) rfl
          constructor
          · simp only [decArray_out, decArray_bytesWritten]
            rw [harr, hpos, hsplit, hpm]
            rw [← h5inv, hlen5]
            simp [u32le]
            omega
          · refine ⟨List.replicate (padCount st.pos 4) 0 ++ u32le t.length ++
              (List.replicate sq.firstPadding 0 ++ t), ?_⟩
            simp only [decArray_out]
            rw [harr, hpos, hsplit, hpm]
            simp [List.append_assoc]
  | strct fields =>
    cases fields with
    | nil =>
      intro sig st sig' st' hok hinv
      exact basicCase_grow 'y' 1 [0] sig st sig' st' hok hinv
    | cons f fs =>
      intro sig st sig' st' hok hinv
      simp only [serializeValue] at hok
      split at hok
      · exact absurd hok (by simp)
      · rename_i c ctail
        split at hok
        · split at hok
          · exact absurd hok (by simp)
          · rename_i alignment halign
            simp only [skip1, bind_ok_eq, incStruct, addPadding_structDepth,
              ge_iff_le] at hok
            split at hok
            · rw [bind_error_eq] at hok
              exact absurd hok (by simp)
            · rw [bind_ok_eq] at hok
              cases hf : serializeFields (f :: fs) ctail
                  { addPadding st alignment with
                    structDepth := st.structDepth + 1 } with
              | error e =>
                rw [hf, bind_error_eq] at hok
                exact absurd hok (by simp)
              | ok p =>
                obtain ⟨sigOut, st3⟩ := p
                rw [hf, bind_ok_eq] at hok
                cases hs : skipChars 1 sigOut with
                | error e =>
                  rw [hs, bind_error_eq] at hok
                  exact absurd hok (by simp)
                | ok sigEnd =>
                  rw [hs, bind_ok_eq] at hok
                  simp only [Except.ok.injEq, Prod.mk.injEq] at hok
                  obtain ⟨-, hst⟩ := hok
                  subst hst
                  obtain ⟨h3inv, h3t⟩ :=
                    serializeFields_grow (f :: fs) ctail _ sigOut st3 hf
                      (by simp [addPadding, hinv])
                  refine ⟨h3inv, append_chain ?_ h3t⟩
                  exact ⟨List.replicate (padCount st.pos alignment) 0,
                    by simp [addPadding]⟩
        · exact absurd hok (by simp)

/-- Elementwise version of `serializeValue_grow` for arrays. -/
theorem serializeElems_grow (l : List Value) : ∀ (sig : List Char)
    (st : SerState) (st' : SerState),
    serializeElems l sig st = .ok st' →
    st.out.length = st.bytesWritten →
    st'.out.length = st'.bytesWritten ∧ ∃ t, st'.out = st.out ++ t := by
  cases l with
  | nil =>
    intro sig st st' hok hinv
    simp only [serializeElems, Except.ok.injEq] at hok
    subst hok
    exact ⟨hinv, ⟨[], by simp⟩⟩
  | cons v rest =>
    intro sig st st' hok hinv
    simp only [serializeElems] at hok
    cases hv : serializeValue v sig st with
    | error e => rw [hv, bind_error_eq] at hok; exact absurd hok (by simp)
    | ok p =>
      obtain ⟨sigI, stI⟩ := p
      rw [hv, bind_ok_eq] at hok
      obtain ⟨hIinv, hIt⟩ := serializeValue_grow v sig st sigI stI hv hinv
      obtain ⟨h2inv, h2t⟩ := serializeElems_grow rest sig stI st' hok hIinv
      exact ⟨h2inv, append_chain hIt h2t⟩

/-- Fieldwise version of `serializeValue_grow` for structs. -/
theorem serializeFields_grow (l : List Value) : ∀ (sig : List Char)
    (st : SerState) (sig' : List Char) (st' : SerState),
    serializeFields l sig st = .ok (sig', st') →
    st.out.length = st.bytesWritten →
    st'.out.length = st'.bytesWritten ∧ ∃ t, st'.out = st.out ++ t := by
  cases l with
  | nil =>
    intro sig st sig' st' hok hinv
    simp only [serializeFields, Except.ok.injEq, Prod.mk.injEq] at hok
    obtain ⟨-, hst⟩ := hok
    subst hst
    exact ⟨hinv, ⟨[], by simp⟩⟩
  | cons v rest =>
    intro sig st sig' st' hok hinv
    simp only [serializeFields] at hok
    cases hv : serializeValue v sig st with
    | error e => rw [hv, bind_error_eq] at hok; exact absurd hok (by simp)
    | ok p =>
      obtain ⟨sigI, stI⟩ := p
      rw [hv, bind_ok_eq] at hok
      obtain ⟨hIinv, hIt⟩ := serializeValue_grow v sig st sigI stI hv hinv
      obtain ⟨h2inv, h2t⟩ := serializeFields_grow rest sigI stI sig' st' hok hIinv
      exact ⟨h2inv, append_chain hIt h2t⟩

end

theorem readU32_at (pre post : List Nat) (n : Nat) :
    readU32 (pre ++ (u32le n ++ post)) pre.length = n % 4294967296 := by
  unfold readU32
  rw [List.drop_left]
  rw [show (u32le n ++ post).take 4 = u32le n from by simp [u32le]]
  simp only [u32le, decodeU32]
  omega

/-- Full characterization of a successful array serialization: the final
buffer extends the initial one with alignment padding to 4, the patched
u32 length prefix, the first-element padding for the element alignment
(present even when the array is empty), and the element bytes; the length
prefix encodes exactly the element byte count. -/
theorem serializeValue_array_inv (elems : List Value) (sig : List Char)
    (st : SerState) (sig' : List Char) (st' : SerState)
    (hok : serializeValue (.array elems) sig st = .ok (sig', st'))
    (hinv : st.out.length = st.bytesWritten) :
    ∃ c sig1 align t,
      sig = c :: sig1 ∧ alignmentFor sig1 = some align ∧
      st'.out = st.out ++ List.replicate (padCount st.pos 4) 0 ++
        u32le t.length ++
        List.replicate (padCount (st.pos + padCount st.pos 4 + 4) align) 0 ++
        t ∧
      (elems = [] → t = []) := by
  simp only [serializeValue] at hok
  cases hq : serializeSeqStart sig st with
  | error e => rw [hq, bind_error_eq] at hok; exact absurd hok (by simp)
  | ok sq =>
    rw [hq, bind_ok_eq] at hok
    cases he : serializeElems elems sq.sigElem sq.st with
    | error e => rw [he, bind_error_eq] at hok; exact absurd hok (by simp)
    | ok st5 =>
      rw [he, bind_ok_eq] at hok
      obtain ⟨c, hsig, hnl, hal, hdlt, hfp, hout, hbw, hstart, hbase, hdep⟩ :=
        serializeSeqStart_ok_inv sig st sq hq
      have hsqinv : sq.st.out.length = sq.st.bytesWritten := by
        rw [hout, hbw]
        simp [u32le, hinv]
        omega
      obtain ⟨h5inv, t, h5out⟩ :=
        serializeElems_grow elems sq.sigElem sq.st st5 he hsqinv
      unfold endSeq at hok
      cases hs2 : skipChars sq.elementSignatureLen sq.sigElem with
      | error e => rw [hs2, bind_error_eq] at hok; exact absurd hok (by simp)
      | ok sig2 =>
        rw [hs2, bind_ok_eq] at hok
        simp only [Except.ok.injEq, Prod.mk.injEq] at hok
        obtain ⟨-, hst⟩ := hok
        subst hst
        have hlen5 : st5.out.length = st.out.length + padCount st.pos 4 + 4 +
            sq.firstPadding + t.length := by
          rw [h5out, hout]
          simp [u32le]
          omega
        have harr : st5.bytesWritten - sq.start = t.length := by
          rw [← h5inv, hlen5, hstart, ← hinv]
          omega
        have hpos : st5.out.length - (t.length + sq.firstPadding + 4) =
            (st.out ++ List.replicate (padCount st.pos 4) 0).length := by
          rw [hlen5]
          simp
          omega
        have hsplit : st5.out =
            (st.out ++ List.replicate (padCount st.pos 4) 0) ++ u32le 0 ++
              (List.replicate sq.firstPadding 0 ++ t) := by
          rw [h5out, hout]
          simp [List.append_assoc]
        have hpm := patch_mid
          (st.out ++ List.replicate (padCount st.pos 4) 0) (u32le 0)
          (List.replicate sq.firstPadding 0 ++ t) (u32le t.length) rfl
        refine ⟨c, sq.sigElem, sq.elementAlignment, t, hsig, hal, ?_, ?_⟩
        · simp only [decArray_out]
          rw [harr, hpos, hsplit, hpm, hfp]
          simp [List.append_assoc]
        · intro helems
          subst helems
          simp only [serializeElems, Except.ok.injEq] at he
          rw [← he] at h5out
          simp at h5out
          exact h5out

/-- C2: after any successful array serialization, the u32 written into the
length placeholder equals the byte count of the element region — what was
written from the end of the post-placeholder padding through the last
element — and excludes the padding preceding the first element; for an
empty array it is 0. -/
theorem array_length_prefix_counts_element_bytes
    (elems : List Value) (sig : List Char) (st : SerState)
    (sig' : List Char) (st' : SerState)
    (hok : serializeValue (.array elems) sig st = .ok (sig', st'))
    (hinv : st.out.length = st.bytesWritten) :
    ∃ p4 fp elemBytes,
      p4 = padCount st.pos 4 ∧
      st'.out = st.out ++ List.replicate p4 0 ++ u32le elemBytes.length ++
        List.replicate fp 0 ++ elemBytes ∧
      readU32 st'.out (st.out.length + p4) = elemBytes.length % 4294967296 ∧
      (elems = [] → elemBytes = []) := by
  obtain ⟨c, sig1, align, t, hsig, hal, hout, hnil⟩ :=
    serializeValue_array_inv elems sig st sig' st' hok hinv
  refine ⟨padCount st.pos 4,
    padCount (st.pos + padCount st.pos 4 + 4) align, t, rfl, hout, ?_, hnil⟩
  have hsh : st'.out = (st.out ++ List.replicate (padCount st.pos 4) 0) ++
      (u32le t.length ++
        (List.replicate (padCount (st.pos + padCount st.pos 4 + 4) align) 0 ++
          t)) := by
    rw [hout]
    simp [List.append_assoc]
  rw [hsh, show st.out.length + padCount st.pos 4 =
    (st.out ++ List.replicate (padCount st.pos 4) 0).length from by simp]
  exact readU32_at _ _ _

theorem array_length_prefix_counts_element_bytes_witness :
    ∃ p4 fp elemBytes,
      p4 = padCount (initState 0).pos 4 ∧
      ({ initState 0 with
          out := [4, 0, 0, 0, 1, 0, 0, 0], bytesWritten := 8 } : SerState).out =
        (initState 0).out ++ List.replicate p4 0 ++
          u32le elemBytes.length ++ List.replicate fp 0 ++ elemBytes ∧
      readU32 ({ initState 0 with
          out := [4, 0, 0, 0, 1, 0, 0, 0], bytesWritten := 8 } : SerState).out
          ((initState 0).out.length + p4) = elemBytes.length % 4294967296 ∧
      ([Value.u32 1] = ([] : List Value) → elemBytes = []) :=
  array_length_prefix_counts_element_bytes [.u32 1] ['a', 'u'] (initState 0)
    [] { initState 0 with
          out := [4, 0, 0, 0, 1, 0, 0, 0], bytesWritten := 8 }
    (by decide) rfl

/-- C3: serializing an empty array still emits, after the 4-byte length
placeholder (patched to 0), the padding bytes that would precede a first
element of the element type's alignment. -/
theorem empty_array_emits_element_padding (sig : List Char) (st : SerState)
    (sig' : List Char) (st' : SerState)
    (hok : serializeValue (.array []) sig st = .ok (sig', st'))
    (hinv : st.out.length = st.bytesWritten) :
    ∃ c sig1 align,
      sig = c :: sig1 ∧ alignmentFor sig1 = some align ∧
      st'.out = st.out ++ List.replicate (padCount st.pos 4) 0 ++ u32le 0 ++
        List.replicate (padCount (st.pos + padCount st.pos 4 + 4) align) 0 := by
  obtain ⟨c, sig1, align, t, hsig, hal, hout, hnil⟩ :=
    serializeValue_array_inv [] sig st sig' st' hok hinv
  have ht := hnil rfl
  subst ht
  exact ⟨c, sig1, align, hsig, hal, by simpa using hout⟩

theorem empty_array_emits_element_padding_witness :
    ∃ c sig1 align,
      (['a', 'x'] : List Char) = c :: sig1 ∧
      alignmentFor sig1 = some align ∧
      ({ initState 0 with
          out := [0, 0, 0, 0, 0, 0, 0, 0], bytesWritten := 8 } : SerState).out =
        (initState 0).out ++
          List.replicate (padCount (initState 0).pos 4) 0 ++ u32le 0 ++
          List.replicate
            (padCount ((initState 0).pos +
              padCount (initState 0).pos 4 + 4) align) 0 :=
  empty_array_emits_element_padding ['a', 'x'] (initState 0) []
    { initState 0 with
        out := [0, 0, 0, 0, 0, 0, 0, 0], bytesWritten := 8 }
    (by decide) rfl

theorem code_replySerial (n : Nat) :
    (Message.Field.replySerial n).code = FieldCode.replySerial := rfl

theorem code_destination (d : List Char) :
    (Message.Field.destination d).code = FieldCode.destination := rfl

theorem find?_code_filter_ne (fs : List Field) (c : FieldCode) :
    ((fs.filter fun g => decide (g.code ≠ c)).find?
      fun f => decide (f.code = c)) = none := by
  induction fs with
  | nil => rfl
  | cons f fs ih =>
    by_cases h : f.code = c
    · simp [List.filter_cons, h, ih]
    · simp [List.filter_cons, h, List.find?_cons, ih]

theorem find?_code_filter_other (fs : List Field) (c c' : FieldCode)
    (hcc : c' ≠ c) :
    ((fs.filter fun g => decide (g.code ≠ c)).find?
      fun f => decide (f.code = c')) =
      fs.find? fun f => decide (f.code = c') := by
  rw [List.find?_filter]
  congr 1
  funext a
  by_cases h' : a.code = c'
  · rw [h']
    simp [hcc]
  · simp [h']

/-- C7: `reply_to` sets REPLY_SERIAL to the reference header's serial and,
exactly when the reference header carries a SENDER, sets DESTINATION to
that sender; with no SENDER the DESTINATION lookup is untouched. -/
theorem reply_to_sets_reply_serial_and_destination (b h : Header) :
    getField (replyTo b h) .replySerial =
      some (.replySerial h.primary.serial) ∧
    (∀ s, Header.sender h = some s →
      getField (replyTo b h) .destination = some (.destination s)) ∧
    (Header.sender h = none →
      getField (replyTo b h) .destination = getField b .destination) := by
  cases hs : Header.sender h with
  | none =>
    refine ⟨?_, ?_, ?_⟩
    · simp only [replyTo, hs, getField, Fields.replace, code_replySerial]
      rw [List.find?_append, find?_code_filter_ne]
      simp [List.find?_cons, code_replySerial]
    · intro s hss
      cases hss
    · intro _
      simp only [replyTo, hs, getField, Fields.replace, code_replySerial]
      rw [List.find?_append, find?_code_filter_other _ _ _ (by decide)]
      simp [List.find?_cons, code_replySerial]
  | some s0 =>
    refine ⟨?_, ?_, ?_⟩
    · simp only [replyTo, hs, getField, Fields.replace, code_replySerial,
        code_destination]
      rw [List.find?_append, find?_code_filter_other _ _ _ (by decide),
        List.find?_append, find?_code_filter_ne]
      simp [List.find?_cons, code_replySerial]
    · intro s hss
      injection hss with hss
      subst hss
      simp only [replyTo, hs, getField, Fields.replace, code_replySerial,
        code_destination]
      rw [List.find?_append, find?_code_filter_ne]
      simp [List.find?_cons, code_destination]
    · intro hnone
      cases hnone

theorem reply_to_sets_reply_serial_and_destination_witness :
    getField (replyTo freshReturnHeader refHeader142) .replySerial =
      some (.replySerial 7) ∧
    getField (replyTo freshReturnHeader refHeader142) .destination =
      some (.destination [':', '1', '.', '4', '2']) := by
  have hmain := reply_to_sets_reply_serial_and_destination
    freshReturnHeader refHeader142
  exact ⟨hmain.1, hmain.2.1 _ rfl⟩

/-- C10: converting a header into a builder removes exactly the SIGNATURE
and UNIX_FDS fields, keeping the primary header and every other field (in
order). -/
theorem builder_from_header_drops_signature_and_fds (hd : Header) :
    (builderFromHeader hd).primary = hd.primary ∧
    (builderFromHeader hd).fields = hd.fields.filter
      (fun f => decide (f.code ≠ FieldCode.signature) &&
        decide (f.code ≠ FieldCode.unixFDs)) := by
  refine ⟨rfl, ?_⟩
  simp only [builderFromHeader, Fields.remove]
  rw [List.filter_filter]
  exact List.filter_congr fun a _ => by rw [Bool.and_comm]
